import Mathlib

/-!
Verification of the FirstTry CI-mirroring core against its specification.

The development shallowly embeds the relevant Python modules:
  * `firsttry/pro_features.py` — plan executor (`run_ci_plan_locally`,
    `run_ci_steps_locally`), license check, safety filter;
  * `firsttry/gates.py` — gate runner (`run_gate`);
  * `firsttry/ci_mapper.py` — plan normalizer (`build_ci_plan`).

Host-process execution (`subprocess.run`) is modelled by an oracle
`exec : String → CmdResult` mapping a command line to its observed outcome;
each embedded runner additionally returns the list of commands it handed to
the oracle, modelling the sequence of spawned processes.  Wall-clock
timestamps (`runtime_sec`) are not modelled; the per-command `duration_sec`
is whatever the oracle reports.
-/

namespace FirstTry

/-- Substring containment, the embedding of Python's `needle in haystack`. -/
def strContainsSub (s pat : String) : Bool :=
  decide (pat.data <:+: s.data)

/-- Python's `str.lower`, as a character map (the deny-list tokens and all
strings of interest are ASCII, where the two agree). -/
def strToLower (s : String) : String :=
  ⟨s.data.map Char.toLower⟩

/-- Python's `str.strip`: drop leading and trailing whitespace. -/
def strTrim (s : String) : String :=
  ⟨((s.data.dropWhile Char.isWhitespace).reverse.dropWhile
      Char.isWhitespace).reverse⟩

/-- Embedding of Python's `a or b` for an optional string `a`: `None` and the
empty string are falsy, so the default wins exactly there. -/
def pyOr (a : Option String) (b : String) : String :=
  match a with
  | some s => if s = "" then b else s
  | none => b

/-- Outcome of one host-process invocation, the data `_run_single_command`
(and the legacy runner's direct `subprocess.run` call) reads off a completed
process: exit code, captured output, and measured duration. -/
structure CmdResult where
  returncode : Int
  stdout : String
  stderr : String
  duration_sec : Nat
deriving Repr, DecidableEq

/-- `_assert_license_is_valid` from `pro_features.py`: raises
`ProFeatureError "No license key provided"` exactly when the key is falsy
(`None` or `""`); any other string is accepted (`TEST-KEY-OK` explicitly,
everything else by the trailing `return`). -/
def assert_license_is_valid (license_key : Option String) : Except String Unit :=
  match license_key with
  | none => .error "No license key provided"
  | some k =>
    if k = "" then .error "No license key provided"
    else if k = "TEST-KEY-OK" then .ok ()
    else .ok ()

/-- `DANGEROUS_TOKENS` from `run_ci_steps_locally`. -/
def DANGEROUS_TOKENS : List String :=
  ["rm -rf /", "rm -rf ~", "shutdown", "reboot", ":(){ :|:& };:"]

/-- `_is_command_safe`: the lower-cased command must contain none of the
deny-list substrings. -/
def is_command_safe (cmd_str : String) : Bool :=
  DANGEROUS_TOKENS.all (fun bad => !(strContainsSub (strToLower cmd_str) bad))

/-! ## Plan data model (output shape of `ci_mapper.build_ci_plan`,
input shape of `run_ci_plan_locally`) -/

/-- The `meta` dict attached by `_normalize_step` (the raw
`original_step` payload is carried opaquely by the source and irrelevant to
every consumer; it is omitted here). -/
structure Meta where
  workflow : String
  job : String
  original_index : Nat
deriving Repr, DecidableEq

/-- A normalized step as produced by `_normalize_step`. -/
structure NormStep where
  job : String
  step_name : String
  cmd : String
  install : Bool
  meta : Meta
deriving Repr, DecidableEq

/-- A job entry of the plan's `jobs` list. -/
structure PlanJob where
  job_name : String
  workflow_name : String
  steps : List NormStep
deriving Repr, DecidableEq

/-- The flat plan consumed by `run_ci_plan_locally` (its `jobs` key). -/
structure Plan where
  jobs : List PlanJob
deriving Repr, DecidableEq

/-! ## Plan executor (`run_ci_plan_locally`) report shapes -/

/-- One per-step entry of the report's `jobs[i].steps` list. -/
structure StepEntry where
  step_name : String
  cmd : String
  install : Bool
  duration_sec : Nat
  returncode : Int
  stdout : String
  stderr : String
  job : String
  workflow_name : String
  meta : Meta
deriving Repr, DecidableEq

/-- The forensic `failed_at` dict built at the first failing step. -/
structure FailedAt where
  workflow_name : String
  job_name : String
  step_name : String
  cmd : String
  returncode : Int
  stderr : String
  stdout : String
  duration_sec : Nat
  hint : String
deriving Repr, DecidableEq

/-- `summary.failed_at` is one of two dict shapes: the license-failure
shape `\x7b"reason": "license", "message": msg\x7d` returned before any
execution, or the forensic step-failure shape. -/
inductive FailedAtInfo where
  | licenseFailure (message : String)
  | stepFailure (f : FailedAt)
deriving Repr, DecidableEq

/-- The report's `summary` dict (`runtime_sec`, wall-clock time, is not
modelled). -/
structure Summary where
  total_jobs : Nat
  total_steps : Nat
  failed_at : Option FailedAtInfo
deriving Repr, DecidableEq

/-- One entry of the report's `jobs` list. -/
structure JobReport where
  job_name : String
  workflow_name : String
  steps : List StepEntry
deriving Repr, DecidableEq

/-- The structured result of `run_ci_plan_locally`. -/
structure Report where
  ok : Bool
  summary : Summary
  jobs : List JobReport
deriving Repr, DecidableEq

/-- The remediation hint attached to `failed_at`: the optional quickfix
collaborator (`quickfix.suggest_fix`) is consulted with the command and its
captured output; a truthy (non-empty) suggestion replaces the default hint.
(The source's runtime-import fallback and exception guards collapse onto the
same oracle.) -/
def computeHint (qf : Option (String → String → String → String))
    (cmd stdout stderr : String) : String :=
  let default := "Run the failing command locally to reproduce and fix it."
  match qf with
  | none => default
  | some f =>
    let specific := f cmd stdout stderr
    if specific = "" then default else specific

/-- The step entry `run_ci_plan_locally` appends for an executed step. -/
def mkStepEntry (exec : String → CmdResult) (wf_name job_name : String)
    (step : NormStep) : StepEntry :=
  let result := exec step.cmd
  { step_name := step.step_name
    cmd := step.cmd
    install := step.install
    duration_sec := result.duration_sec
    returncode := result.returncode
    stdout := result.stdout
    stderr := result.stderr
    job := job_name
    workflow_name := wf_name
    meta := step.meta }

/-- The forensic record `run_ci_plan_locally` builds at the first failure. -/
def mkFailedAt (exec : String → CmdResult)
    (qf : Option (String → String → String → String))
    (wf_name job_name : String) (step : NormStep) : FailedAt :=
  let result := exec step.cmd
  { workflow_name := wf_name
    job_name := job_name
    step_name := step.step_name
    cmd := step.cmd
    returncode := result.returncode
    stderr := result.stderr
    stdout := result.stdout
    duration_sec := result.duration_sec
    hint := computeHint qf step.cmd result.stdout result.stderr }

/-- The inner `for step in job["steps"]` loop of `run_ci_plan_locally`:
returns the per-step entries, the number of steps attempted (the
`total_steps` increments), the forensic record if a step failed, and the
commands spawned.  The loop `break`s right after recording the first
non-zero exit. -/
def runJobSteps (exec : String → CmdResult)
    (qf : Option (String → String → String → String))
    (wf_name job_name : String) :
    List NormStep → List StepEntry × Nat × Option FailedAt × List String
  | [] => ([], 0, none, [])
  | step :: rest =>
    let result := exec step.cmd
    let entry := mkStepEntry exec wf_name job_name step
    if result.returncode ≠ 0 then
      ([entry], 1, some (mkFailedAt exec qf wf_name job_name step), [step.cmd])
    else
      let (entries, n, f, tr) := runJobSteps exec qf wf_name job_name rest
      (entry :: entries, n + 1, f, step.cmd :: tr)

/-- The outer `for job in plan.get("jobs", [])` loop: each attempted job
contributes a job report (the failing job's report holds the steps up to and
including the failure); the loop `break`s once `overall_ok` turned false. -/
def runJobs (exec : String → CmdResult)
    (qf : Option (String → String → String → String)) :
    List PlanJob → List JobReport × Nat × Option FailedAt × List String
  | [] => ([], 0, none, [])
  | job :: rest =>
    let (entries, n, f, tr) :=
      runJobSteps exec qf job.workflow_name job.job_name job.steps
    let report : JobReport :=
      { job_name := job.job_name, workflow_name := job.workflow_name
        steps := entries }
    match f with
    | some fa => ([report], n, some fa, tr)
    | none =>
      let (reports, m, f2, tr2) := runJobs exec qf rest
      (report :: reports, n + m, f2, tr ++ tr2)

/-- `run_ci_plan_locally` from `pro_features.py`, parameterized by the
process oracle `exec` and the optional quickfix collaborator `qf`.  The
second component of the result is the sequence of commands spawned as host
processes.  A license failure short-circuits with the synthetic summary;
otherwise jobs and steps run in order with early stop on first failure, and
`ok` is true iff no forensic record was produced. -/
def run_ci_plan_locally (exec : String → CmdResult)
    (qf : Option (String → String → String → String))
    (plan : Plan) (license_key : Option String) : Report × List String :=
  match assert_license_is_valid license_key with
  | .error msg =>
    ({ ok := false
       summary := { total_jobs := 0, total_steps := 0
                    failed_at := some (.licenseFailure msg) }
       jobs := [] }, [])
  | .ok _ =>
    let (reports, total_steps, failed, tr) := runJobs exec qf plan.jobs
    ({ ok := failed.isNone
       summary := { total_jobs := plan.jobs.length, total_steps := total_steps
                    failed_at := failed.map .stepFailure }
       jobs := reports }, tr)

/-! ## Legacy bulk executor (`run_ci_steps_locally`) -/

/-- A step of the legacy dict plan; every field is read with `.get`, so each
is optional. -/
structure LegacyStep where
  name : Option String
  step_name : Option String
  run : Option String
  cmd : Option String
deriving Repr, DecidableEq

/-- A job of the legacy dict plan. -/
structure LegacyJob where
  job_name : Option String
  job_id : Option String
  steps : List LegacyStep
deriving Repr, DecidableEq

/-- The legacy dict plan (`\x7b"jobs": [...]\x7d`). -/
structure LegacyPlan where
  jobs : List LegacyJob
deriving Repr, DecidableEq

/-- `run_ci_steps_locally` accepts either a legacy list of shell commands or
a dict plan (`legacy_mode = isinstance(plan, list)`). -/
inductive LegacyInput where
  | cmds (l : List String)
  | plan (p : LegacyPlan)
deriving Repr, DecidableEq

/-- One entry of the legacy runner's `results` list; the four dict shapes
appearing in the source (license failure, skipped, safety-blocked, executed)
are distinguished by constructor.  Fields invariant in the source (e.g. the
blocked entry's `stderr = "Command blocked by safety policy"`,
`returncode = None`) are kept in the doc rather than the constructor. -/
inductive LegacyResult where
  | licenseCheck (output : String)
  | skipped (job step : String)
  | blocked (job step cmd : String)
  | executed (job step cmd : String) (returncode : Int) (output : String)
deriving Repr, DecidableEq

/-- The legacy runner's return shape `\x7b"ok": bool, "results": [...]\x7d`. -/
structure LegacyReport where
  ok : Bool
  results : List LegacyResult
deriving Repr, DecidableEq

/-- Effective job name: `job.get("job_name") or job.get("job_id") or
"unknown-job"`. -/
def legacyJobName (job : LegacyJob) : String :=
  pyOr job.job_name (pyOr job.job_id "unknown-job")

/-- Effective step name: `step.get("name") or step.get("step_name") or
"unnamed-step"`. -/
def legacyStepName (st : LegacyStep) : String :=
  pyOr st.name (pyOr st.step_name "unnamed-step")

/-- Effective command: `step.get("run") or step.get("cmd") or ""`. -/
def legacyCmd (st : LegacyStep) : String :=
  pyOr st.run (pyOr st.cmd "")

/-- The combined-output string built from a completed process. -/
def legacyOutput (r : CmdResult) : String :=
  "STDOUT:\n" ++ r.stdout.trim ++ "\n\nSTDERR:\n" ++ r.stderr.trim

/-- The body of the legacy runner's step loop for one step: a falsy command
yields a SKIPPED entry; an unsafe command yields a blocked entry and flips
`overall_ok`; otherwise the command is spawned and a non-zero exit flips
`overall_ok`.  Returns (entries, ok-contribution, spawned commands). -/
def legacyStepRun (exec : String → CmdResult) (job_name : String)
    (st : LegacyStep) : List LegacyResult × Bool × List String :=
  let step_name := legacyStepName st
  let cmd := legacyCmd st
  if cmd = "" then
    ([.skipped job_name step_name], true, [])
  else if !is_command_safe cmd then
    ([.blocked job_name step_name cmd], false, [])
  else
    let r := exec cmd
    ([.executed job_name step_name cmd r.returncode (legacyOutput r)],
      r.returncode == 0, [cmd])

/-- The legacy runner's step loop over a job's steps (no early stop:
`overall_ok` is the conjunction of every step's contribution and the
entries accumulate in order). -/
def legacyRunSteps (exec : String → CmdResult) (job_name : String) :
    List LegacyStep → List LegacyResult × Bool × List String
  | [] => ([], true, [])
  | st :: rest =>
    let (rs, ok, tr) := legacyStepRun exec job_name st
    let (rs2, ok2, tr2) := legacyRunSteps exec job_name rest
    (rs ++ rs2, ok && ok2, tr ++ tr2)

/-- The legacy runner's job loop. -/
def legacyRunJobs (exec : String → CmdResult) :
    List LegacyJob → List LegacyResult × Bool × List String
  | [] => ([], true, [])
  | job :: rest =>
    let (rs, ok, tr) := legacyRunSteps exec (legacyJobName job) job.steps
    let (rs2, ok2, tr2) := legacyRunJobs exec rest
    (rs ++ rs2, ok && ok2, tr ++ tr2)

/-- Normalization of the legacy list-of-commands input: each command becomes
`\x7b"name": "step-i", "run": cmd\x7d` inside a single job named `legacy`. -/
def legacyNormalize (l : List String) : LegacyPlan :=
  { jobs := [{ job_name := some "legacy", job_id := none
               steps := l.enum.map fun ic =>
                 { name := some ("step-" ++ toString ic.1)
                   step_name := none, run := some ic.2, cmd := none } }] }

/-- `run_ci_steps_locally` from `pro_features.py` (legacy bulk mode),
parameterized by the process oracle.  License gating: a provided key is
validated (failure returns the synthetic license-check result); a missing
key blocks unless the input was the legacy command list.  The second result
component is the sequence of spawned commands. -/
def run_ci_steps_locally (exec : String → CmdResult) (input : LegacyInput)
    (license_key : Option String) : LegacyReport × List String :=
  let legacy_mode := match input with | .cmds _ => true | .plan _ => false
  let p := match input with
    | .cmds l => legacyNormalize l
    | .plan p => p
  match license_key with
  | some k =>
    match assert_license_is_valid (some k) with
    | .error msg =>
      ({ ok := false
         results := [.licenseCheck ("License validation failed: " ++ msg)] },
        [])
    | .ok _ =>
      let (rs, ok, tr) := legacyRunJobs exec p.jobs
      ({ ok := ok, results := rs }, tr)
  | none =>
    if !legacy_mode then
      ({ ok := false
         results := [.licenseCheck
           "License validation failed: No license key provided"] }, [])
    else
      let (rs, ok, tr) := legacyRunJobs exec p.jobs
      ({ ok := ok, results := rs }, tr)

/-! ## Gate runner (`gates.py`) -/

/-- The `GateResult` dataclass (status is a plain string in the source:
"PASS" | "FAIL" | "SKIPPED"). -/
structure GateResult where
  name : String
  status : String
  info : String := ""
  details : String := ""
  returncode : Option Int := none
  stdout : Option String := none
  stderr : Option String := none
deriving Repr, DecidableEq

/-- The JSON-ready dict produced by `gate_result_to_dict`. -/
structure GateDict where
  gate : String
  ok : Bool
  status : String
  info : String
  details : String
  returncode : Option Int
  stdout : String
  stderr : String
deriving Repr, DecidableEq

/-- `gate_result_to_dict`: normalizes execution metadata (a PASS without a
recorded exit code is presented as 0; missing stdout falls back to
`details or ""`, which for strings is just `details`; missing stderr to
`""`) and derives `ok` from the status. -/
def gate_result_to_dict (res : GateResult) : GateDict :=
  let rc := if res.returncode = none && res.status = "PASS" then some 0
            else res.returncode
  { gate := res.name
    ok := res.status = "PASS"
    status := res.status
    info := res.info
    details := res.details
    returncode := rc
    stdout := res.stdout.getD res.details
    stderr := res.stderr.getD "" }

/-- `PRE_COMMIT_TASKS`: display label paired with the check function's
`__name__` (run-time resolution through module globals is modelled by
looking the name up in the `checks` oracle). -/
def PRE_COMMIT_TASKS : List (String × String) :=
  [("Lint..........", "check_lint"),
   ("Types.........", "check_types"),
   ("Tests.........", "check_tests"),
   ("SQLite Drift..", "check_sqlite_drift"),
   ("CI Mirror.....", "check_ci_mirror")]

/-- `PRE_PUSH_TASKS`. -/
def PRE_PUSH_TASKS : List (String × String) :=
  [("Lint..........", "check_lint"),
   ("Types.........", "check_types"),
   ("Tests.........", "check_tests"),
   ("SQLite Drift..", "check_sqlite_drift"),
   ("PG Drift......", "check_pg_drift"),
   ("Docker Smoke..", "check_docker_smoke"),
   ("CI Mirror.....", "check_ci_mirror")]

/-- The body of `run_gate`'s task loop for one task: a check that raises
(`Except.error`) is converted at the invocation boundary into a FAIL
`GateResult` carrying the exception text in `details` and `stderr`; in
every case `res.name` is then overwritten with the display label. -/
def runGateTask (checks : String → Except String GateResult)
    (task : String × String) : GateResult :=
  let res := match checks task.2 with
    | .ok r => r
    | .error exc =>
      { name := task.1, status := "FAIL", info := "exception"
        details := exc, returncode := none, stdout := none
        stderr := some exc }
  { res with name := task.1 }

/-- `run_gate` from `gates.py`, parameterized by the `checks` oracle mapping
a check function's name to its outcome (a returned `GateResult` or a raised
exception).  An unknown gate name raises `ValueError` (modelled as
`Except.error`); otherwise every task of the fixed sequence runs, results
are converted to dicts, and `overall_ok` is true iff no result has status
FAIL. -/
def run_gate (checks : String → Except String GateResult) (which : String) :
    Except String (List GateDict × Bool) :=
  if which ≠ "pre-commit" && which ≠ "pre-push" then
    .error "gate must be 'pre-commit' or 'pre-push'"
  else
    let tasks := if which = "pre-commit" then PRE_COMMIT_TASKS
                 else PRE_PUSH_TASKS
    let results := tasks.map (runGateTask checks)
    let any_fail := results.any (fun r => r.status = "FAIL")
    .ok (results.map gate_result_to_dict, !any_fail)

/-! ## Plan normalizer (`ci_mapper.py`)

File discovery and YAML parsing are at the filesystem boundary: the
embedding receives the directory's file names and a decode oracle
`content : String → Except String Workflow`.  `yaml.safe_load` raising
(malformed YAML), or the loaded document not being a mapping (`.get` on a
list/scalar raises `AttributeError`), is `Except.error`; an empty document
(`safe_load` returns `None`, replaced by `\x7b\x7d`) is the empty
`Workflow`. -/

/-- Python's `sorted` on file names: lexicographic by code point. -/
def charListLe : List Char → List Char → Bool
  | [], _ => true
  | _ :: _, [] => false
  | a :: as, b :: bs =>
    if a.toNat < b.toNat then true
    else if b.toNat < a.toNat then false
    else charListLe as bs

/-- Code-point lexicographic order on strings. -/
def strLe (a b : String) : Bool :=
  charListLe a.data b.data

/-- `sorted(...)` over a list of names. -/
def sortStrings (l : List String) : List String :=
  List.insertionSort (fun a b => strLe a b = true) l

/-- `glob` suffix matching for the two workflow patterns. -/
def strEndsWith (s pat : String) : Bool :=
  decide (pat.data <:+ s.data)

/-- `_collect_workflow_files`: the sorted `*.yml` matches followed by the
sorted `*.yaml` matches — two independently sorted groups, concatenated. -/
def collect_workflow_files (names : List String) : List String :=
  sortStrings (names.filter (fun n => strEndsWith n ".yml"))
    ++ sortStrings (names.filter (fun n => strEndsWith n ".yaml"))

/-- `SKIP_KEYWORDS`. -/
def SKIP_KEYWORDS : List String :=
  ["actions/checkout", "actions/setup-python", "actions/setup-node",
   "actions/cache"]

/-- `INSTALL_HINTS`. -/
def INSTALL_HINTS : List String :=
  ["pip install", "pip3 install", "npm ci", "npm install", "pnpm install",
   "yarn install"]

/-- A decoded source step; every field is read with `.get`. -/
structure SrcStep where
  name : Option String
  run : Option String
  uses : Option String
  env : List (String × String)
deriving Repr, DecidableEq

/-- A decoded job body: `env` and `steps` keys. -/
structure SrcJobBody where
  env : List (String × String)
  steps : List SrcStep
deriving Repr, DecidableEq

/-- A decoded workflow document: optional `name` and the insertion-ordered
`jobs` mapping. -/
structure Workflow where
  name : Option String
  jobs : List (String × SrcJobBody)
deriving Repr, DecidableEq

/-- `_should_skip_step`: a truthy `uses` containing a skip keyword is
skipped; otherwise a step is skipped iff its run command is blank after
stripping and `uses` is falsy. -/
def should_skip_step (step : SrcStep) : Bool :=
  let uses := step.uses.getD ""
  if uses ≠ "" && SKIP_KEYWORDS.any (fun bad => strContainsSub uses bad) then
    true
  else
    (strTrim (pyOr step.run "") == "") && (uses == "")

/-- `_looks_like_setup_step`: a non-blank run command containing an install
hint substring (containment tested on the unstripped command). -/
def looks_like_setup_step (step : SrcStep) : Bool :=
  let runStr := pyOr step.run ""
  if strTrim runStr = "" then false
  else INSTALL_HINTS.any (fun kw => strContainsSub runStr kw)

/-- `_normalize_step`: `None` for a skipped step, else the normalized step
record. -/
def normalize_step (step : SrcStep) (job_name : String) (step_idx : Nat)
    (wf_name : String) : Option NormStep :=
  if should_skip_step step then none
  else
    let runStr := pyOr step.run ""
    let step_name := pyOr step.name ("step-" ++ toString step_idx)
    some { job := job_name
           step_name := step_name
           cmd := strTrim runStr
           install := looks_like_setup_step step
           meta := { workflow := wf_name, job := job_name
                     original_index := step_idx } }

/-- The retained normalized steps of one job, in declaration order. -/
def norm_steps_of (job_name wf_name : String) (steps : List SrcStep) :
    List NormStep :=
  steps.enum.filterMap fun ist => normalize_step ist.2 job_name ist.1 wf_name

/-- A legacy-shape output step (`name`/`run`/`env`). -/
structure LegacyOutStep where
  name : String
  run : String
  env : List (String × String)
deriving Repr, DecidableEq

/-- `dict(base)` followed by `.update(upd)` on association lists without
duplicate keys: existing keys keep their position with updated values, new
keys append in update order. -/
def dictUpdate (base upd : List (String × String)) :
    List (String × String) :=
  (base.map fun p =>
    match upd.lookup p.1 with
    | some v => (p.1, v)
    | none => p)
    ++ upd.filter (fun q => (base.lookup q.1).isNone)

/-- The legacy steps of one job: non-skipped steps with a non-blank run
command, carrying the job env overridden key-by-key by the step env. -/
def legacy_steps_of (job_env : List (String × String))
    (steps : List SrcStep) : List LegacyOutStep :=
  steps.enum.filterMap fun ist =>
    if should_skip_step ist.2 then none
    else
      let step_run := pyOr ist.2.run ""
      if strTrim step_run = "" then none
      else some { name := pyOr ist.2.name ("step-" ++ toString ist.1)
                  run := strTrim step_run
                  env := dictUpdate job_env ist.2.env }

/-- A legacy-shape job (`job_id`/`steps`). -/
structure LegacyWfJob where
  job_id : String
  steps : List LegacyOutStep
deriving Repr, DecidableEq

/-- A legacy-shape workflow entry (`workflow_file`/`jobs`). -/
structure LegacyWf where
  workflow_file : String
  jobs : List LegacyWfJob
deriving Repr, DecidableEq

/-- The plan returned by `build_ci_plan`: the flat `jobs` list and the
legacy `workflows` list (the key is absent when the list is empty). -/
structure CiPlanOut where
  jobs : List PlanJob
  workflows : List LegacyWf
deriving Repr, DecidableEq

/-- The per-workflow-file body of `build_ci_plan`'s loop (the source builds
the normalized and legacy shapes in one pass over the jobs; jobs with no
retained steps are dropped from either shape independently). -/
def process_workflow (fileName : String) (wf : Workflow) :
    List PlanJob × Option LegacyWf :=
  let wf_name := wf.name.getD fileName
  let jobs_out := wf.jobs.filterMap fun jb =>
    let ns := norm_steps_of jb.1 wf_name jb.2.steps
    if ns.isEmpty then none
    else some { job_name := jb.1, workflow_name := wf_name, steps := ns }
  let legacy_jobs := wf.jobs.filterMap fun jb =>
    let ls := legacy_steps_of jb.2.env jb.2.steps
    if ls.isEmpty then none else some { job_id := jb.1, steps := ls }
  (jobs_out,
    if legacy_jobs.isEmpty then none
    else some { workflow_file := fileName, jobs := legacy_jobs })

/-- The workflow-file loop of `build_ci_plan`: a decode failure propagates
as the raised exception (there is no handler in the source), otherwise the
file's contributions are appended. -/
def build_ci_plan_go (content : String → Except String Workflow) :
    List String → Except String CiPlanOut
  | [] => .ok { jobs := [], workflows := [] }
  | f :: rest =>
    match content f with
    | .error e => .error e
    | .ok wf =>
      let pw := process_workflow f wf
      match build_ci_plan_go content rest with
      | .error e => .error e
      | .ok out =>
        .ok { jobs := pw.1 ++ out.jobs
              workflows := pw.2.toList ++ out.workflows }

/-- `build_ci_plan` from `ci_mapper.py`, over the workflow directory's file
names and the YAML decode oracle. -/
def build_ci_plan (names : List String)
    (content : String → Except String Workflow) : Except String CiPlanOut :=
  build_ci_plan_go content (collect_workflow_files names)

/-- The report entry of a job all of whose steps were executed (used to
state what the executor produces for the jobs before the failing one). -/
def fullJobReport (exec : String → CmdResult) (j : PlanJob) : JobReport :=
  { job_name := j.job_name
    workflow_name := j.workflow_name
    steps := j.steps.map (mkStepEntry exec j.workflow_name j.job_name) }

/-! ## Concrete instances used to evaluate the development on closed inputs -/

/-- A process oracle where only the command `false` fails. -/
def execOnlyFalseFails : String → CmdResult := fun c =>
  if c = "false" then ⟨1, "", "boom", 7⟩ else ⟨0, "fine", "", 3⟩

/-- A normalized step of the job `qa` of workflow `wf`. -/
def mkQaStep (n c : String) : NormStep :=
  ⟨"qa", n, c, false, ⟨"wf", "qa", 0⟩⟩

/-- A checks oracle grading every check SKIPPED. -/
def checksAllSkip : String → Except String GateResult := fun n =>
  .ok ⟨n, "SKIPPED", "", "", none, none, none⟩

/-- A checks oracle where the lint check raises and the rest pass. -/
def checksLintRaises : String → Except String GateResult := fun n =>
  if n = "check_lint" then .error "kaput"
  else .ok ⟨n, "PASS", "", "", none, none, none⟩

/-- The jobs a single source file contributes to the flat plan (empty for
a file that fails to decode). -/
def fileJobs (content : String → Except String Workflow) (f : String) :
    List PlanJob :=
  match content f with
  | .ok wf => (process_workflow f wf).1
  | .error _ => []

/-- The legacy workflow entries a single source file contributes. -/
def fileWorkflows (content : String → Except String Workflow) (f : String) :
    List LegacyWf :=
  match content f with
  | .ok wf => (process_workflow f wf).2.toList
  | .error _ => []

/-- The source-merging order asserted by the claim "cross-source job order
follows lexicographic order of source file names": one lexicographically
sorted pass over all matching source names (`.yml` and `.yaml`
interleaved). -/
def build_ci_plan_claimed_order (names : List String)
    (content : String → Except String Workflow) : Except String CiPlanOut :=
  build_ci_plan_go content
    (sortStrings (names.filter (fun n =>
      strEndsWith n ".yml" || strEndsWith n ".yaml")))

/-- A decode oracle where `good.yml` is a one-job workflow and every other
file raises a YAML parse error. -/
def contentC6 : String → Except String Workflow := fun f =>
  if f = "good.yml" then
    .ok ⟨some "wfA",
      [("build", ⟨[], [⟨some "step", some "echo ok", none, []⟩]⟩)]⟩
  else .error "yaml.parser.ParserError: did not find expected key"

/-- A decode oracle with a job `j1` in `a.yaml` and a job `j2` in any other
file. -/
def contentC8 : String → Except String Workflow := fun f =>
  if f = "a.yaml" then
    .ok ⟨some "wfA", [("j1", ⟨[], [⟨some "s", some "echo 1", none, []⟩]⟩)]⟩
  else
    .ok ⟨some "wfB", [("j2", ⟨[], [⟨some "s", some "echo 2", none, []⟩]⟩)]⟩

/-! ## Theorems -/

/-- C10: `_assert_license_is_valid` raises `ProFeatureError` exactly when
the key is `None` or the empty string; every non-empty key is accepted, so
execution proceeds for any non-empty credential regardless of its
content. -/
theorem assert_license_is_valid_iff_nonempty (key : Option String) :
    (assert_license_is_valid key = .error "No license key provided"
        ↔ (key = none ∨ key = some "")) ∧
    (assert_license_is_valid key = .ok ()
        ↔ ∃ s, key = some s ∧ s ≠ "") := by
  cases key with
  | none => simp [assert_license_is_valid]
  | some k =>
    by_cases hk : k = "" <;>
      by_cases ht : k = "TEST-KEY-OK" <;>
        simp_all [assert_license_is_valid]

/-- C3: a missing/invalid license key makes `run_ci_plan_locally` return
immediately with `ok=false`, the synthetic `failed_at` carrying reason
"license" and the validation message, `total_jobs=0`, `total_steps=0`, and
no spawned command. -/
theorem run_ci_plan_locally_license_failure
    (exec : String → CmdResult)
    (qf : Option (String → String → String → String))
    (plan : Plan) (key : Option String) (msg : String)
    (h : assert_license_is_valid key = .error msg) :
    run_ci_plan_locally exec qf plan key =
      ({ ok := false
         summary := { total_jobs := 0, total_steps := 0
                      failed_at := some (.licenseFailure msg) }
         jobs := [] }, []) := by
  simp [run_ci_plan_locally, h]

/-- Witness for C3 at a concrete input: a missing key. -/
theorem run_ci_plan_locally_license_failure_witness :
    run_ci_plan_locally (fun _ => ⟨0, "", "", 0⟩) none
        ⟨[⟨"qa", "wf", [⟨"qa", "s", "echo hi", false, ⟨"wf", "qa", 0⟩⟩]⟩]⟩
        none =
      ({ ok := false
         summary := { total_jobs := 0, total_steps := 0
                      failed_at := some
                        (.licenseFailure "No license key provided") }
         jobs := [] }, []) :=
  run_ci_plan_locally_license_failure _ _ _ _ _ rfl

/-- C9: on a plan with zero jobs and a valid license,
`run_ci_plan_locally` returns `ok=true`, `total_steps=0`, no
`failed_at`, and spawns nothing. -/
theorem run_ci_plan_locally_empty_plan
    (exec : String → CmdResult)
    (qf : Option (String → String → String → String))
    (key : Option String)
    (h : assert_license_is_valid key = .ok ()) :
    run_ci_plan_locally exec qf ⟨[]⟩ key =
      ({ ok := true
         summary := { total_jobs := 0, total_steps := 0, failed_at := none }
         jobs := [] }, []) := by
  simp [run_ci_plan_locally, h, runJobs]

/-- Witness for C9 at a concrete input. -/
theorem run_ci_plan_locally_empty_plan_witness :
    run_ci_plan_locally (fun _ => ⟨0, "", "", 0⟩) none ⟨[]⟩
        (some "TEST-KEY-OK") =
      ({ ok := true
         summary := { total_jobs := 0, total_steps := 0, failed_at := none }
         jobs := [] }, []) :=
  run_ci_plan_locally_empty_plan _ _ _ rfl

/-- The dict conversion preserves the status string. -/
theorem gate_result_to_dict_status (r : GateResult) :
    (gate_result_to_dict r).status = r.status := rfl

/-- C2: for gate name "pre-commit" or "pre-push", `run_gate` returns
`overallOk = true` iff no returned result has status FAIL (in particular
SKIPPED results never make `overallOk` false). -/
theorem run_gate_overall_ok_iff_no_fail
    (checks : String → Except String GateResult) (which : String)
    (h : which = "pre-commit" ∨ which = "pre-push") :
    ∃ results overallOk,
      run_gate checks which = .ok (results, overallOk) ∧
      (overallOk = true ↔ ∀ r ∈ results, r.status ≠ "FAIL") := by
  have key : ∀ tasks : List (String × String),
      ((!((tasks.map (runGateTask checks)).any
          (fun r => r.status = "FAIL"))) = true
        ↔ ∀ r ∈ (tasks.map (runGateTask checks)).map gate_result_to_dict,
            r.status ≠ "FAIL") := by
    intro tasks
    simp only [Bool.not_eq_true', List.any_eq_false, decide_eq_true_eq,
      List.mem_map, gate_result_to_dict_status]
    constructor
    · rintro hall r ⟨g, ⟨t, ht, rfl⟩, rfl⟩
      exact hall _ ⟨t, ht, rfl⟩
    · rintro hall g ⟨t, ht, rfl⟩
      exact hall _ ⟨_, ⟨t, ht, rfl⟩, rfl⟩
  rcases h with h | h <;> subst h <;>
    exact ⟨_, _, rfl, key _⟩

/-- Witness for C2: a pre-commit run where every check is SKIPPED. -/
theorem run_gate_overall_ok_iff_no_fail_witness :
    ∃ results overallOk,
      run_gate checksAllSkip "pre-commit" = .ok (results, overallOk) ∧
      (overallOk = true ↔ ∀ r ∈ results, r.status ≠ "FAIL") :=
  run_gate_overall_ok_iff_no_fail checksAllSkip "pre-commit" (Or.inl rfl)

/-- C5: for a valid gate name, `run_gate` never propagates a check's
exception: it returns a result list with one entry per task of the fixed
sequence, and any task whose check raised is graded FAIL with the exception
text in `details` and `stderr`. -/
theorem run_gate_converts_exceptions
    (checks : String → Except String GateResult) (which : String)
    (h : which = "pre-commit" ∨ which = "pre-push") :
    ∃ results overallOk,
      run_gate checks which = .ok (results, overallOk) ∧
      results.length = (if which = "pre-commit" then PRE_COMMIT_TASKS
                        else PRE_PUSH_TASKS).length ∧
      (∀ i e
          (hi : i < (if which = "pre-commit" then PRE_COMMIT_TASKS
                     else PRE_PUSH_TASKS).length)
          (hr : i < results.length),
        checks ((if which = "pre-commit" then PRE_COMMIT_TASKS
                 else PRE_PUSH_TASKS).get ⟨i, hi⟩).2 = .error e →
        (results.get ⟨i, hr⟩).status = "FAIL" ∧
        (results.get ⟨i, hr⟩).details = e ∧
        (results.get ⟨i, hr⟩).stderr = e) := by
  have key : ∀ (tasks : List (String × String)) (i : Nat) (e : String)
      (hi : i < tasks.length)
      (hr : i < ((tasks.map (runGateTask checks)).map
        gate_result_to_dict).length),
      checks (tasks.get ⟨i, hi⟩).2 = .error e →
      ((((tasks.map (runGateTask checks)).map gate_result_to_dict).get
          ⟨i, hr⟩).status = "FAIL" ∧
        (((tasks.map (runGateTask checks)).map gate_result_to_dict).get
          ⟨i, hr⟩).details = e ∧
        (((tasks.map (runGateTask checks)).map gate_result_to_dict).get
          ⟨i, hr⟩).stderr = e) := by
    intro tasks i e hi hr herr
    have : ((tasks.map (runGateTask checks)).map gate_result_to_dict).get
        ⟨i, hr⟩ = gate_result_to_dict (runGateTask checks
          (tasks.get ⟨i, hi⟩)) := by
      simp [List.get_eq_getElem, List.getElem_map]
    rw [this]
    simp only [List.get_eq_getElem] at herr
    simp [runGateTask, herr, gate_result_to_dict]
  rcases h with h | h <;> subst h <;>
    refine ⟨_, _, rfl, by simp [run_gate], ?_⟩ <;>
      · intro i e hi hr herr
        exact key _ i e hi hr herr

/-- Witness for C5: the Lint check raises; all five pre-commit results are
produced and the raising task's result is a FAIL carrying the exception
text. -/
theorem run_gate_converts_exceptions_witness :
    ∃ results overallOk,
      run_gate checksLintRaises "pre-commit" = .ok (results, overallOk) ∧
      results.length = (if "pre-commit" = "pre-commit" then PRE_COMMIT_TASKS
                        else PRE_PUSH_TASKS).length ∧
      (∀ i e
          (hi : i < (if "pre-commit" = "pre-commit" then PRE_COMMIT_TASKS
                     else PRE_PUSH_TASKS).length)
          (hr : i < results.length),
        checksLintRaises
            ((if "pre-commit" = "pre-commit" then PRE_COMMIT_TASKS
              else PRE_PUSH_TASKS).get ⟨i, hi⟩).2 = .error e →
        (results.get ⟨i, hr⟩).status = "FAIL" ∧
        (results.get ⟨i, hr⟩).details = e ∧
        (results.get ⟨i, hr⟩).stderr = e) :=
  run_gate_converts_exceptions checksLintRaises "pre-commit" (Or.inl rfl)

/-- Step loop on an all-passing step list: every step is executed and
recorded, no forensic record is produced. -/
theorem runJobSteps_all_pass
    (exec : String → CmdResult)
    (qf : Option (String → String → String → String))
    (wf jn : String) (ss : List NormStep)
    (h : ∀ s ∈ ss, (exec s.cmd).returncode = 0) :
    runJobSteps exec qf wf jn ss =
      (ss.map (mkStepEntry exec wf jn), ss.length, none,
        ss.map (fun s => s.cmd)) := by
  induction ss with
  | nil => rfl
  | cons s rest ih =>
    have h0 : (exec s.cmd).returncode = 0 := h s (by simp)
    have hr : ∀ x ∈ rest, (exec x.cmd).returncode = 0 := fun x hx =>
      h x (by simp [hx])
    simp [runJobSteps, h0, ih hr]

/-- Step loop when the steps before `s` pass and `s` fails: the loop
records exactly `pre ++ [s]`, produces the forensic record for `s`, and
spawns only the commands of `pre ++ [s]`. -/
theorem runJobSteps_first_fail
    (exec : String → CmdResult)
    (qf : Option (String → String → String → String))
    (wf jn : String) (pre post : List NormStep) (s : NormStep)
    (hpre : ∀ x ∈ pre, (exec x.cmd).returncode = 0)
    (hs : (exec s.cmd).returncode ≠ 0) :
    runJobSteps exec qf wf jn (pre ++ s :: post) =
      ((pre ++ [s]).map (mkStepEntry exec wf jn), pre.length + 1,
        some (mkFailedAt exec qf wf jn s),
        (pre ++ [s]).map (fun x => x.cmd)) := by
  induction pre with
  | nil => simp [runJobSteps, hs]
  | cons p rest ih =>
    have h0 : (exec p.cmd).returncode = 0 := hpre p (by simp)
    have hr : ∀ x ∈ rest, (exec x.cmd).returncode = 0 := fun x hx =>
      hpre x (by simp [hx])
    simp [runJobSteps, h0, ih hr]

/-- Job loop on an all-passing plan: every job is fully executed and
reported. -/
theorem runJobs_all_pass
    (exec : String → CmdResult)
    (qf : Option (String → String → String → String))
    (js : List PlanJob)
    (h : ∀ j ∈ js, ∀ s ∈ j.steps, (exec s.cmd).returncode = 0) :
    runJobs exec qf js =
      (js.map (fullJobReport exec),
        (js.map (fun j => j.steps.length)).sum, none,
        js.flatMap (fun j => j.steps.map (fun s => s.cmd))) := by
  induction js with
  | nil => rfl
  | cons j rest ih =>
    have hj : ∀ s ∈ j.steps, (exec s.cmd).returncode = 0 := fun s hs =>
      h j (by simp) s hs
    have hr : ∀ x ∈ rest, ∀ s ∈ x.steps, (exec s.cmd).returncode = 0 :=
      fun x hx => h x (by simp [hx])
    simp [runJobs, runJobSteps_all_pass exec qf j.workflow_name j.job_name
      j.steps hj, ih hr, fullJobReport]

/-- Job loop when the jobs of `J1` and the steps `pre` all pass and step
`s` of the next job fails: the report holds `J1`'s full job reports plus
the failing job's partial report, nothing of `post` or `J2` is recorded or
spawned. -/
theorem runJobs_first_fail
    (exec : String → CmdResult)
    (qf : Option (String → String → String → String))
    (J1 J2 : List PlanJob) (jn wn : String)
    (pre post : List NormStep) (s : NormStep)
    (hJ1 : ∀ j ∈ J1, ∀ x ∈ j.steps, (exec x.cmd).returncode = 0)
    (hpre : ∀ x ∈ pre, (exec x.cmd).returncode = 0)
    (hs : (exec s.cmd).returncode ≠ 0) :
    runJobs exec qf (J1 ++ ⟨jn, wn, pre ++ s :: post⟩ :: J2) =
      (J1.map (fullJobReport exec) ++
          [⟨jn, wn, (pre ++ [s]).map (mkStepEntry exec wn jn)⟩],
        (J1.map (fun j => j.steps.length)).sum + (pre.length + 1),
        some (mkFailedAt exec qf wn jn s),
        J1.flatMap (fun j => j.steps.map (fun x => x.cmd)) ++
          (pre ++ [s]).map (fun x => x.cmd)) := by
  induction J1 with
  | nil =>
    simp [runJobs, runJobSteps_first_fail exec qf wn jn pre post s hpre hs]
  | cons j rest ih =>
    have hj : ∀ x ∈ j.steps, (exec x.cmd).returncode = 0 := fun x hx =>
      hJ1 j (by simp) x hx
    have hr : ∀ y ∈ rest, ∀ x ∈ y.steps, (exec x.cmd).returncode = 0 :=
      fun y hy => hJ1 y (by simp [hy])
    simp [runJobs, runJobSteps_all_pass exec qf j.workflow_name j.job_name
      j.steps hj, ih hr, fullJobReport, Nat.add_assoc]

/-- C1: with a valid license, on a plan whose steps before step k (job
order, then step order) all exit zero while step k (= step `s`, preceded by
the jobs `J1` and the steps `pre` of its job) exits non-zero,
`run_ci_plan_locally` reports `ok=false`, a `failed_at` naming exactly step
k's workflow, job, step name, command and exit code, per-step records for
precisely the steps up to and including k, and it spawns exactly the
commands of those steps — nothing of `post` or `J2` is recorded or run. -/
theorem run_ci_plan_locally_early_stop
    (exec : String → CmdResult)
    (qf : Option (String → String → String → String))
    (key : Option String) (J1 J2 : List PlanJob) (jn wn : String)
    (pre post : List NormStep) (s : NormStep)
    (hkey : assert_license_is_valid key = .ok ())
    (hJ1 : ∀ j ∈ J1, ∀ x ∈ j.steps, (exec x.cmd).returncode = 0)
    (hpre : ∀ x ∈ pre, (exec x.cmd).returncode = 0)
    (hs : (exec s.cmd).returncode ≠ 0) :
    run_ci_plan_locally exec qf ⟨J1 ++ ⟨jn, wn, pre ++ s :: post⟩ :: J2⟩
        key =
      ({ ok := false
         summary := { total_jobs := J1.length + 1 + J2.length
                      total_steps :=
                        (J1.map (fun j => j.steps.length)).sum +
                          (pre.length + 1)
                      failed_at := some
                        (.stepFailure (mkFailedAt exec qf wn jn s)) }
         jobs := J1.map (fullJobReport exec) ++
           [⟨jn, wn, (pre ++ [s]).map (mkStepEntry exec wn jn)⟩] },
        J1.flatMap (fun j => j.steps.map (fun x => x.cmd)) ++
          (pre ++ [s]).map (fun x => x.cmd)) := by
  simp only [run_ci_plan_locally, hkey,
    runJobs_first_fail exec qf J1 J2 jn wn pre post s hJ1 hpre hs]
  simp
  omega

/-- Witness for C1: the spec's scenario — job `qa` with steps
`lint`/`boom`/`never` where only `boom`'s command fails — preceded by a
passing job and followed by a later job. -/
theorem run_ci_plan_locally_early_stop_witness :
    run_ci_plan_locally execOnlyFalseFails none
        ⟨[⟨"j0", "wf", [mkQaStep "s0" "true"]⟩] ++
          ⟨"qa", "wf",
            [mkQaStep "lint" "true"] ++ mkQaStep "boom" "false" ::
              [mkQaStep "never" "true"]⟩ ::
          [⟨"later", "wf", [mkQaStep "x" "true"]⟩]⟩
        (some "TEST-KEY-OK") =
      ({ ok := false
         summary := { total_jobs :=
                        ([⟨"j0", "wf", [mkQaStep "s0" "true"]⟩] :
                            List PlanJob).length + 1 +
                          ([⟨"later", "wf", [mkQaStep "x" "true"]⟩] :
                            List PlanJob).length
                      total_steps :=
                        (([⟨"j0", "wf", [mkQaStep "s0" "true"]⟩] :
                            List PlanJob).map
                          (fun j => j.steps.length)).sum +
                          (([mkQaStep "lint" "true"] :
                            List NormStep).length + 1)
                      failed_at := some
                        (.stepFailure (mkFailedAt execOnlyFalseFails none
                          "wf" "qa" (mkQaStep "boom" "false"))) }
         jobs := ([⟨"j0", "wf", [mkQaStep "s0" "true"]⟩] :
             List PlanJob).map (fullJobReport execOnlyFalseFails) ++
           [⟨"qa", "wf",
             ([mkQaStep "lint" "true"] ++ [mkQaStep "boom" "false"]).map
               (mkStepEntry execOnlyFalseFails "wf" "qa")⟩] },
        ([⟨"j0", "wf", [mkQaStep "s0" "true"]⟩] :
            List PlanJob).flatMap
          (fun j => j.steps.map (fun x => x.cmd)) ++
          (([mkQaStep "lint" "true"] ++ [mkQaStep "boom" "false"]) :
            List NormStep).map (fun x => x.cmd)) :=
  run_ci_plan_locally_early_stop execOnlyFalseFails none
    (some "TEST-KEY-OK")
    [⟨"j0", "wf", [mkQaStep "s0" "true"]⟩]
    [⟨"later", "wf", [mkQaStep "x" "true"]⟩]
    "qa" "wf" [mkQaStep "lint" "true"] [mkQaStep "never" "true"]
    (mkQaStep "boom" "false") rfl (by decide) (by decide) (by decide)

/-- Unfolding of the legacy step loop on a cons cell. -/
theorem legacyRunSteps_cons (exec : String → CmdResult) (jn : String)
    (p : LegacyStep) (rest : List LegacyStep) :
    legacyRunSteps exec jn (p :: rest) =
      ((legacyStepRun exec jn p).1 ++ (legacyRunSteps exec jn rest).1,
        ((legacyStepRun exec jn p).2.1 && (legacyRunSteps exec jn rest).2.1),
        (legacyStepRun exec jn p).2.2 ++ (legacyRunSteps exec jn rest).2.2)
    := by
  rcases h1 : legacyStepRun exec jn p with ⟨a, b, c⟩
  rcases h2 : legacyRunSteps exec jn rest with ⟨d, e2, f⟩
  simp [legacyRunSteps, h1, h2]

/-- Unfolding of the legacy job loop on a cons cell. -/
theorem legacyRunJobs_cons (exec : String → CmdResult)
    (jb : LegacyJob) (rest : List LegacyJob) :
    legacyRunJobs exec (jb :: rest) =
      ((legacyRunSteps exec (legacyJobName jb) jb.steps).1 ++
          (legacyRunJobs exec rest).1,
        ((legacyRunSteps exec (legacyJobName jb) jb.steps).2.1 &&
          (legacyRunJobs exec rest).2.1),
        (legacyRunSteps exec (legacyJobName jb) jb.steps).2.2 ++
          (legacyRunJobs exec rest).2.2) := by
  rcases h1 : legacyRunSteps exec (legacyJobName jb) jb.steps with ⟨a, b, c⟩
  rcases h2 : legacyRunJobs exec rest with ⟨d, e2, f⟩
  simp [legacyRunJobs, h1, h2]

/-- An unsafe non-empty command yields a blocked entry and a false ok
contribution at its own step. -/
theorem legacyStepRun_denied (exec : String → CmdResult) (jn : String)
    (st : LegacyStep) (hne : legacyCmd st ≠ "")
    (hdeny : is_command_safe (legacyCmd st) = false) :
    legacyStepRun exec jn st =
      ([.blocked jn (legacyStepName st) (legacyCmd st)], false, []) := by
  simp [legacyStepRun, hne, hdeny]

/-- A step with an unsafe non-empty command makes the legacy step loop
record a blocked entry and report failure. -/
theorem legacyRunSteps_blocked (exec : String → CmdResult) (jn : String)
    (steps : List LegacyStep) (st : LegacyStep) (hst : st ∈ steps)
    (hne : legacyCmd st ≠ "")
    (hdeny : is_command_safe (legacyCmd st) = false) :
    LegacyResult.blocked jn (legacyStepName st) (legacyCmd st)
        ∈ (legacyRunSteps exec jn steps).1 ∧
      (legacyRunSteps exec jn steps).2.1 = false := by
  induction steps with
  | nil => cases hst
  | cons p rest ih =>
    rw [legacyRunSteps_cons]
    rcases List.mem_cons.mp hst with rfl | hmem
    · rw [legacyStepRun_denied exec jn st hne hdeny]
      simp
    · obtain ⟨h1, h2⟩ := ih hmem
      exact ⟨by simp [h1], by simp [h2]⟩

/-- Lifting of `legacyRunSteps_blocked` to the job loop. -/
theorem legacyRunJobs_blocked (exec : String → CmdResult)
    (jobs : List LegacyJob) (jb : LegacyJob) (hjb : jb ∈ jobs)
    (st : LegacyStep) (hst : st ∈ jb.steps)
    (hne : legacyCmd st ≠ "")
    (hdeny : is_command_safe (legacyCmd st) = false) :
    LegacyResult.blocked (legacyJobName jb) (legacyStepName st)
        (legacyCmd st) ∈ (legacyRunJobs exec jobs).1 ∧
      (legacyRunJobs exec jobs).2.1 = false := by
  induction jobs with
  | nil => cases hjb
  | cons j rest ih =>
    rw [legacyRunJobs_cons]
    rcases List.mem_cons.mp hjb with rfl | hmem
    · obtain ⟨h1, h2⟩ :=
        legacyRunSteps_blocked exec (legacyJobName jb) jb.steps st hst hne
          hdeny
      exact ⟨by simp [h1], by simp [h2]⟩
    · obtain ⟨h1, h2⟩ := ih hmem
      exact ⟨by simp [h1], by simp [h2]⟩

/-- Every command the legacy runner spawns passed the safety filter. -/
theorem legacyStepRun_trace_safe (exec : String → CmdResult) (jn : String)
    (st : LegacyStep) :
    ∀ c ∈ (legacyStepRun exec jn st).2.2, is_command_safe c = true := by
  intro c hc
  by_cases h1 : legacyCmd st = ""
  · simp [legacyStepRun, h1] at hc
  · by_cases h2 : is_command_safe (legacyCmd st) = true
    · simp [legacyStepRun, h1, h2] at hc
      rw [hc]
      exact h2
    · simp [legacyStepRun, h1, Bool.eq_false_iff.mpr h2] at hc

/-- Safety of the spawned-command trace, step loop. -/
theorem legacyRunSteps_trace_safe (exec : String → CmdResult) (jn : String)
    (steps : List LegacyStep) :
    ∀ c ∈ (legacyRunSteps exec jn steps).2.2, is_command_safe c = true := by
  induction steps with
  | nil => intro c hc; simp [legacyRunSteps] at hc
  | cons p rest ih =>
    intro c hc
    rw [legacyRunSteps_cons] at hc
    rcases List.mem_append.mp hc with h | h
    · exact legacyStepRun_trace_safe exec jn p c h
    · exact ih c h

/-- Safety of the spawned-command trace, job loop. -/
theorem legacyRunJobs_trace_safe (exec : String → CmdResult)
    (jobs : List LegacyJob) :
    ∀ c ∈ (legacyRunJobs exec jobs).2.2, is_command_safe c = true := by
  induction jobs with
  | nil => intro c hc; simp [legacyRunJobs] at hc
  | cons j rest ih =>
    intro c hc
    rw [legacyRunJobs_cons] at hc
    rcases List.mem_append.mp hc with h | h
    · exact legacyRunSteps_trace_safe exec (legacyJobName j) j.steps c h
    · exact ih c h

/-- C4: in an executed dict plan (non-empty license key), a step whose
command contains a deny-list token (matched case-insensitively on the
lowered command text) is rejected by the Safety Filter: a blocked record
for that step appears in the results, the run is marked failed
(`ok=false`), and the command is never spawned. -/
theorem run_ci_steps_locally_blocks_dangerous
    (exec : String → CmdResult) (p : LegacyPlan) (k : String)
    (hk : k ≠ "")
    (jb : LegacyJob) (hjb : jb ∈ p.jobs)
    (st : LegacyStep) (hst : st ∈ jb.steps)
    (bad : String) (hbad : bad ∈ DANGEROUS_TOKENS)
    (hin : strContainsSub (strToLower (legacyCmd st)) bad = true) :
    LegacyResult.blocked (legacyJobName jb) (legacyStepName st)
        (legacyCmd st)
        ∈ (run_ci_steps_locally exec (.plan p) (some k)).1.results ∧
      (run_ci_steps_locally exec (.plan p) (some k)).1.ok = false ∧
      legacyCmd st ∉ (run_ci_steps_locally exec (.plan p) (some k)).2 := by
  have hbadne : bad ≠ "" := by
    simp only [DANGEROUS_TOKENS, List.mem_cons, List.not_mem_nil,
      or_false] at hbad
    rcases hbad with h | h | h | h | h <;> subst h <;> decide
  have hdeny : is_command_safe (legacyCmd st) = false := by
    rw [Bool.eq_false_iff]
    intro hall
    rw [is_command_safe, List.all_eq_true] at hall
    have := hall bad hbad
    simp [hin] at this
  have hne : legacyCmd st ≠ "" := by
    intro h
    rw [h] at hin
    have hempty : strToLower "" = "" := rfl
    rw [hempty] at hin
    rw [strContainsSub, decide_eq_true_eq, List.infix_nil] at hin
    exact hbadne (congrArg String.mk hin)
  have hlic : assert_license_is_valid (some k) = Except.ok () := by
    simp [assert_license_is_valid, hk]
  rcases hrun : legacyRunJobs exec p.jobs with ⟨rs, ok, tr⟩
  have hmain : run_ci_steps_locally exec (.plan p) (some k) =
      ({ ok := ok, results := rs }, tr) := by
    simp [run_ci_steps_locally, hlic, hrun]
  rw [hmain]
  obtain ⟨h1, h2⟩ :=
    legacyRunJobs_blocked exec p.jobs jb hjb st hst hne hdeny
  rw [hrun] at h1 h2
  refine ⟨h1, h2, fun hmem => ?_⟩
  have hsafe := legacyRunJobs_trace_safe exec p.jobs (legacyCmd st)
  rw [hrun] at hsafe
  rw [hsafe hmem] at hdeny
  cases hdeny

/-- Witness for C4: a plan with a fork-bomb step followed by a safe step. -/
theorem run_ci_steps_locally_blocks_dangerous_witness :
    LegacyResult.blocked
        (legacyJobName ⟨some "j", none,
          [⟨some "s1", none, some ":(){ :|:& };:", none⟩,
           ⟨some "s2", none, some "echo hi", none⟩]⟩)
        (legacyStepName ⟨some "s1", none, some ":(){ :|:& };:", none⟩)
        (legacyCmd ⟨some "s1", none, some ":(){ :|:& };:", none⟩)
        ∈ (run_ci_steps_locally execOnlyFalseFails
            (.plan ⟨[⟨some "j", none,
              [⟨some "s1", none, some ":(){ :|:& };:", none⟩,
               ⟨some "s2", none, some "echo hi", none⟩]⟩]⟩)
            (some "TEST-KEY-OK")).1.results ∧
      (run_ci_steps_locally execOnlyFalseFails
          (.plan ⟨[⟨some "j", none,
            [⟨some "s1", none, some ":(){ :|:& };:", none⟩,
             ⟨some "s2", none, some "echo hi", none⟩]⟩]⟩)
          (some "TEST-KEY-OK")).1.ok = false ∧
      legacyCmd ⟨some "s1", none, some ":(){ :|:& };:", none⟩
        ∉ (run_ci_steps_locally execOnlyFalseFails
            (.plan ⟨[⟨some "j", none,
              [⟨some "s1", none, some ":(){ :|:& };:", none⟩,
               ⟨some "s2", none, some "echo hi", none⟩]⟩]⟩)
            (some "TEST-KEY-OK")).2 :=
  run_ci_steps_locally_blocks_dangerous execOnlyFalseFails
    ⟨[⟨some "j", none,
      [⟨some "s1", none, some ":(){ :|:& };:", none⟩,
       ⟨some "s2", none, some "echo hi", none⟩]⟩]⟩
    "TEST-KEY-OK" (by decide)
    ⟨some "j", none,
      [⟨some "s1", none, some ":(){ :|:& };:", none⟩,
       ⟨some "s2", none, some "echo hi", none⟩]⟩ (by decide)
    ⟨some "s1", none, some ":(){ :|:& };:", none⟩ (by decide)
    ":(){ :|:& };:" (by decide) (by decide)

/-- C7: a source step with no run command whose action reference matches a
known no-op/setup action is excluded by the normalizer
(`_normalize_step` returns `None`); and a job all of whose steps normalize
to `None` contributes no job entry to the plan. -/
theorem normalizer_excludes_noop_steps :
    (∀ (st : SrcStep) (jn : String) (idx : Nat) (wfn u kw : String),
        pyOr st.run "" = "" →
        st.uses = some u →
        kw ∈ SKIP_KEYWORDS →
        strContainsSub u kw = true →
        normalize_step st jn idx wfn = none) ∧
    (∀ (fileName : String) (wf : Workflow) (jn : String),
        (∀ e ∈ wf.jobs, e.1 = jn →
          ∀ st ∈ e.2.steps, ∀ idx,
            normalize_step st jn idx (wf.name.getD fileName) = none) →
        ∀ pj ∈ (process_workflow fileName wf).1, pj.job_name ≠ jn) := by
  constructor
  · intro st jn idx wfn u kw hrun huses hkw hin
    have hany : SKIP_KEYWORDS.any (fun bad => strContainsSub u bad)
        = true := List.any_eq_true.mpr ⟨kw, hkw, hin⟩
    have hskip : should_skip_step st = true := by
      rw [should_skip_step]
      simp only [huses, Option.getD_some]
      by_cases hu : u = ""
      · subst hu
        simp [hrun, strTrim]
      · simp [hu, hany]
    simp [normalize_step, hskip]
  · intro fileName wf jn hall pj hpj
    simp only [process_workflow, List.mem_filterMap] at hpj
    obtain ⟨e, he, hfe⟩ := hpj
    by_cases hne :
        (norm_steps_of e.1 (wf.name.getD fileName) e.2.steps).isEmpty
    · rw [if_pos hne] at hfe
      cases hfe
    · rw [if_neg hne] at hfe
      have hname : pj.job_name = e.1 := by
        cases hfe
        rfl
      intro hjn
      apply hne
      rw [List.isEmpty_iff]
      rw [norm_steps_of, List.filterMap_eq_nil]
      intro ist hist
      obtain ⟨i, st⟩ := ist
      obtain ⟨hi, hx⟩ := List.mem_enum hist
      have hstmem : st ∈ e.2.steps := by
        rw [hx]
        exact List.getElem_mem hi
      have he1 : e.1 = jn := by rw [← hname, hjn]
      have := hall e he he1 st hstmem i
      rw [he1]
      exact this

/-- Witness for C7: a job whose only step is a bare `actions/checkout`
reference is dropped entirely. -/
theorem normalizer_excludes_noop_steps_witness :
    (pyOr (⟨none, none, some "actions/checkout", []⟩ : SrcStep).run "" = ""
      ∧ (⟨none, none, some "actions/checkout", []⟩ : SrcStep).uses =
          some "actions/checkout"
      ∧ "actions/checkout" ∈ SKIP_KEYWORDS
      ∧ strContainsSub "actions/checkout" "actions/checkout" = true
      ∧ normalize_step ⟨none, none, some "actions/checkout", []⟩ "build" 0
          "ci.yml" = none) ∧
    ((∀ e ∈ ([("build",
          ⟨[], [⟨none, none, some "actions/checkout", []⟩]⟩)] :
            List (String × SrcJobBody)), e.1 = "build" →
        ∀ st ∈ e.2.steps, ∀ idx,
          normalize_step st "build" idx
            ((none : Option String).getD "ci.yml") = none) ∧
      ∀ pj ∈ (process_workflow "ci.yml"
          ⟨none, [("build",
            ⟨[], [⟨none, none, some "actions/checkout", []⟩]⟩)]⟩).1,
        pj.job_name ≠ "build") := by
  constructor
  · refine ⟨rfl, rfl, by decide, by decide, ?_⟩
    exact normalizer_excludes_noop_steps.1
      ⟨none, none, some "actions/checkout", []⟩ "build" 0 "ci.yml"
      "actions/checkout" "actions/checkout" rfl rfl (by decide) (by decide)
  · constructor
    · intro e he h1 st hst idx
      simp only [List.mem_singleton] at he
      subst he
      simp only [List.mem_singleton] at hst
      subst hst
      have hskip : should_skip_step
          ⟨none, none, some "actions/checkout", []⟩ = true := by decide
      simp [normalize_step, hskip]
    · exact normalizer_excludes_noop_steps.2 "ci.yml"
        ⟨none, [("build", ⟨[], [⟨none, none, some "actions/checkout", []⟩]⟩)]⟩
        "build"
        (by intro e he h1 st hst idx
            simp only [List.mem_singleton] at he
            subst he
            simp only [List.mem_singleton] at hst
            subst hst
            have hskip : should_skip_step
                ⟨none, none, some "actions/checkout", []⟩ = true := by decide
            simp [normalize_step, hskip])

/-- A decode error anywhere in the processed file list propagates out of
the workflow loop. -/
theorem build_ci_plan_go_error
    (content : String → Except String Workflow) (l : List String)
    (n : String) (e : String) (hn : n ∈ l) (he : content n = .error e) :
    ∃ e2, build_ci_plan_go content l = .error e2 := by
  induction l with
  | nil => cases hn
  | cons f rest ih =>
    rcases List.mem_cons.mp hn with rfl | hmem
    · exact ⟨e, by simp [build_ci_plan_go, he]⟩
    · cases hf : content f with
      | error e3 => exact ⟨e3, by simp [build_ci_plan_go, hf]⟩
      | ok wf =>
        obtain ⟨e2, h2⟩ := ih hmem
        exact ⟨e2, by simp [build_ci_plan_go, hf, h2]⟩

/-- C6 counterexample: with one well-formed source (`good.yml`, one job)
and one malformed source (`broken.yml`), `build_ci_plan` does not return a
plan at all — the decode exception escapes and aborts normalization,
contradicting the claim that the malformed source merely contributes zero
jobs. -/
theorem build_ci_plan_malformed_aborts_counterexample :
    build_ci_plan ["good.yml", "broken.yml"] contentC6 =
      .error "yaml.parser.ParserError: did not find expected key" := rfl

/-- C6 (amended): a source that fails to decode makes `build_ci_plan`
propagate the exception and abort normalization (no plan is returned);
only a source decoding to an empty document contributes zero jobs without
aborting. -/
theorem build_ci_plan_malformed_aborts
    (content : String → Except String Workflow) (names : List String)
    (n : String) (e : String)
    (hn : n ∈ collect_workflow_files names)
    (he : content n = .error e) :
    (∃ e2, build_ci_plan names content = .error e2) ∧
    (∀ f, process_workflow f ⟨none, []⟩ = ([], none)) :=
  ⟨build_ci_plan_go_error content (collect_workflow_files names) n e hn he,
    fun _ => rfl⟩

/-- Witness for the amended C6 at the counterexample's input. -/
theorem build_ci_plan_malformed_aborts_witness :
    (∃ e2, build_ci_plan ["good.yml", "broken.yml"] contentC6 =
        .error e2) ∧
    (∀ f, process_workflow f ⟨none, []⟩ = ([], none)) :=
  build_ci_plan_malformed_aborts contentC6 ["good.yml", "broken.yml"]
    "broken.yml" "yaml.parser.ParserError: did not find expected key"
    (by decide) rfl

/-- C8 counterexample: with sources `b.yml` (job `j2`) and `a.yaml` (job
`j1`), the built plan lists `j2` before `j1`, while processing the sources
in lexicographic order of their names would list `j1` first — cross-source
order is not lexicographic across the two glob groups. -/
theorem build_ci_plan_order_counterexample :
    (build_ci_plan ["b.yml", "a.yaml"] contentC8).map
        (fun o => o.jobs.map (fun j => j.job_name)) =
      .ok ["j2", "j1"] ∧
    (build_ci_plan_claimed_order ["b.yml", "a.yaml"] contentC8).map
        (fun o => o.jobs.map (fun j => j.job_name)) =
      .ok ["j1", "j2"] := ⟨rfl, rfl⟩

/-- `charListLe` is total. -/
theorem charListLe_total : ∀ a b : List Char,
    charListLe a b = true ∨ charListLe b a = true
  | [], _ => Or.inl rfl
  | _ :: _, [] => Or.inr rfl
  | a :: as, b :: bs => by
    rcases Nat.lt_trichotomy a.toNat b.toNat with h | h | h
    · left
      simp [charListLe, h]
    · rcases charListLe_total as bs with ih | ih
      · left
        simp [charListLe, h, ih]
      · right
        simp [charListLe, h.symm, ih]
    · right
      simp [charListLe, h]

/-- `charListLe` is transitive. -/
theorem charListLe_trans : ∀ a b c : List Char,
    charListLe a b = true → charListLe b c = true → charListLe a c = true
  | [], _, _, _, _ => rfl
  | _ :: _, [], _, hab, _ => by simp [charListLe] at hab
  | _ :: _, _ :: _, [], _, hbc => by simp [charListLe] at hbc
  | a :: as, b :: bs, c :: cs, hab, hbc => by
    by_cases h1 : a.toNat < b.toNat <;> by_cases h2 : b.toNat < c.toNat
    · simp [charListLe, Nat.lt_trans h1 h2]
    · by_cases h3 : c.toNat < b.toNat
      · simp [charListLe, h2, h3] at hbc
      · have hac : a.toNat < c.toNat := by omega
        simp [charListLe, hac]
    · by_cases h4 : b.toNat < a.toNat
      · simp [charListLe, h1, h4] at hab
      · have hac : a.toNat < c.toNat := by omega
        simp [charListLe, hac]
    · by_cases h4 : b.toNat < a.toNat
      · simp [charListLe, h1, h4] at hab
      · by_cases h3 : c.toNat < b.toNat
        · simp [charListLe, h2, h3] at hbc
        · have hab2 : charListLe as bs = true := by
            simpa [charListLe, h1, h4] using hab
          have hbc2 : charListLe bs cs = true := by
            simpa [charListLe, h2, h3] using hbc
          have h5 : ¬ a.toNat < c.toNat := by omega
          have h6 : ¬ c.toNat < a.toNat := by omega
          simpa [charListLe, h5, h6] using
            charListLe_trans as bs cs hab2 hbc2

/-- `sortStrings` really sorts: its output is `strLe`-sorted. -/
theorem sortStrings_sorted (l : List String) :
    (sortStrings l).Sorted (fun a b => strLe a b = true) := by
  haveI : IsTotal String (fun a b => strLe a b = true) :=
    ⟨fun a b => charListLe_total a.data b.data⟩
  haveI : IsTrans String (fun a b => strLe a b = true) :=
    ⟨fun a b c => charListLe_trans a.data b.data c.data⟩
  exact List.sorted_insertionSort _ l

/-- When every processed source decodes, the loop returns the
concatenation, in processing order, of each file's contributions. -/
theorem build_ci_plan_go_ok
    (content : String → Except String Workflow) (l : List String)
    (h : ∀ n ∈ l, ∃ wf, content n = .ok wf) :
    build_ci_plan_go content l =
      .ok ⟨l.flatMap (fileJobs content), l.flatMap (fileWorkflows content)⟩
    := by
  induction l with
  | nil => rfl
  | cons f rest ih =>
    obtain ⟨wf, hwf⟩ := h f (by simp)
    have hr := ih (fun n hn => h n (by simp [hn]))
    simp [build_ci_plan_go, hwf, hr, fileJobs, fileWorkflows]

/-- C8 (amended): the plan merges all sources into one flat job list whose
cross-source order is the processing order of `_collect_workflow_files`:
the `.yml` sources in lexicographic name order first, then the `.yaml`
sources in lexicographic name order, with declaration order preserved
within each source (each file's `fileJobs` block is kept contiguous and
in-order). -/
theorem build_ci_plan_merge_order (names : List String)
    (content : String → Except String Workflow)
    (h : ∀ n ∈ collect_workflow_files names, ∃ wf, content n = .ok wf) :
    build_ci_plan names content =
      .ok ⟨(collect_workflow_files names).flatMap (fileJobs content),
           (collect_workflow_files names).flatMap (fileWorkflows content)⟩ ∧
    collect_workflow_files names =
      sortStrings (names.filter (fun n => strEndsWith n ".yml")) ++
        sortStrings (names.filter (fun n => strEndsWith n ".yaml")) ∧
    (sortStrings (names.filter (fun n => strEndsWith n ".yml"))).Sorted
      (fun a b => strLe a b = true) ∧
    (sortStrings (names.filter (fun n => strEndsWith n ".yaml"))).Sorted
      (fun a b => strLe a b = true) :=
  ⟨build_ci_plan_go_ok content _ h, rfl, sortStrings_sorted _,
    sortStrings_sorted _⟩

/-- Witness for the amended C8 at the counterexample's input. -/
theorem build_ci_plan_merge_order_witness :
    build_ci_plan ["b.yml", "a.yaml"] contentC8 =
      .ok ⟨(collect_workflow_files ["b.yml", "a.yaml"]).flatMap
            (fileJobs contentC8),
          (collect_workflow_files ["b.yml", "a.yaml"]).flatMap
            (fileWorkflows contentC8)⟩ ∧
    collect_workflow_files ["b.yml", "a.yaml"] =
      sortStrings ((["b.yml", "a.yaml"] : List String).filter
          (fun n => strEndsWith n ".yml")) ++
        sortStrings ((["b.yml", "a.yaml"] : List String).filter
          (fun n => strEndsWith n ".yaml")) ∧
    (sortStrings ((["b.yml", "a.yaml"] : List String).filter
        (fun n => strEndsWith n ".yml"))).Sorted
      (fun a b => strLe a b = true) ∧
    (sortStrings ((["b.yml", "a.yaml"] : List String).filter
        (fun n => strEndsWith n ".yaml"))).Sorted
      (fun a b => strLe a b = true) :=
  build_ci_plan_merge_order ["b.yml", "a.yaml"] contentC8 (by
    intro n hn
    have hcoll : collect_workflow_files ["b.yml", "a.yaml"] =
        ["b.yml", "a.yaml"] := rfl
    rw [hcoll] at hn
    rcases List.mem_cons.mp hn with rfl | hn
    · exact ⟨_, rfl⟩
    · rcases List.mem_cons.mp hn with rfl | hn
      · exact ⟨_, rfl⟩
      · cases hn)

end FirstTry
